import Mathlib

/-!
Shallow embedding of the ToDoList client application (src/src/App.tsx,
src/db/todoDB.ts, and the earlier App revision) for checking its
specification.

Conventions of the embedding:
* A JavaScript Date / epoch-milliseconds value is an `Int` (milliseconds
  since the Unix epoch).  The local timezone is modelled as a fixed offset
  `tz` in milliseconds added to an instant before decomposing it into local
  calendar fields; `tz = 0` is UTC.
* `Blob` values are opaque; they are modelled by `Nat` tokens.
* The Dexie table `db.todos` is a `List Todo` in insertion order; the
  live query `db.todos.reverse().toArray()` hands the view the reversed
  (newest-first) list, which the filter functions below take as input.
* JavaScript's stable `Array.prototype.sort` is modelled by the stable
  `List.mergeSort`; a comparator that returns 0 everywhere leaves the list
  unchanged, so the non-year tabs keep the input order.
-/

namespace ToDoList

/-! ### Calendar arithmetic (date-fns over JS Date) -/

def msPerDay : Int := 86400000

/-- Local epoch-day index of an instant, in timezone offset `tz` (ms). -/
def localDays (tz ms : Int) : Int := Int.fdiv (ms + tz) msPerDay

/-- date-fns `startOfDay`: the instant of local midnight of the day
containing `ms`. -/
def startOfDay (tz ms : Int) : Int := localDays tz ms * msPerDay - tz

/-- date-fns `isSameDay`: equal `startOfDay`, i.e. the same local calendar
day. -/
def isSameDay (tz a b : Int) : Bool := startOfDay tz a == startOfDay tz b

/-- date-fns `startOfToday`: local midnight of the current instant `now`. -/
def startOfToday (tz now : Int) : Int := startOfDay tz now

/-- date-fns `isBefore`: strict comparison of instants. -/
def isBefore (a b : Int) : Bool := a < b

/-- date-fns `isAfter`: strict comparison of instants. -/
def isAfter (a b : Int) : Bool := b < a

/-- Civil (proleptic Gregorian) date from an epoch-day index
(Howard Hinnant's `civil_from_days`): returns (year, month 1..12,
day 1..31). -/
def civilFromDays (z0 : Int) : Int × Int × Int :=
  let z := z0 + 719468
  let era := Int.fdiv z 146097
  let doe := z - era * 146097
  let yoe := Int.fdiv (doe - Int.fdiv doe 1460 + Int.fdiv doe 36524 - Int.fdiv doe 146096) 365
  let y := yoe + era * 400
  let doy := doe - (365 * yoe + Int.fdiv yoe 4 - Int.fdiv yoe 100)
  let mp := Int.fdiv (5 * doy + 2) 153
  let d := doy - Int.fdiv (153 * mp + 2) 5 + 1
  let m := if mp < 10 then mp + 3 else mp - 9
  (if m ≤ 2 then y + 1 else y, m, d)

/-- Epoch-day index of a civil date (Hinnant's `days_from_civil`). -/
def daysFromCivil (y0 m d : Int) : Int :=
  let y := if m ≤ 2 then y0 - 1 else y0
  let era := Int.fdiv y 400
  let yoe := y - era * 400
  let doy := Int.fdiv (153 * (if 2 < m then m - 3 else m + 9) + 2) 5 + d - 1
  let doe := yoe * 365 + Int.fdiv yoe 4 - Int.fdiv yoe 100 + doy
  era * 146097 + doe - 719468

/-- JS `Date.prototype.getFullYear` in timezone offset `tz`. -/
def getFullYear (tz ms : Int) : Int := (civilFromDays (localDays tz ms)).1

/-- JS `Date.prototype.getMonth` (0-based) in timezone offset `tz`. -/
def getMonth (tz ms : Int) : Int := (civilFromDays (localDays tz ms)).2.1 - 1

/-- Epoch ms of the local wall-clock time y-m-d hh:mi in timezone offset
`tz`. -/
def mkLocalMs (tz y m d hh mi : Int) : Int :=
  daysFromCivil y m d * msPerDay + hh * 3600000 + mi * 60000 - tz

/-! ### Data model (src/db/todoDB.ts, plus the `images` field the current
App revision reads and writes) -/

/-- The stored category: `type: 'day' | 'month' | 'year'` of the `Todo`
interface. -/
inductive TodoType
  | day
  | month
  | year
deriving DecidableEq, Repr

/-- The UI tab: `type TabType = 'day' | 'month' | 'year' | 'incomplete'`. -/
inductive TabType
  | day
  | month
  | year
  | incomplete
deriving DecidableEq, Repr

/-- `viewMode` state: `'list' | 'calendar'`. -/
inductive ViewMode
  | list
  | calendar
deriving DecidableEq, Repr

/-- The persisted task record.  `image` is the legacy single-attachment
field; `images` is the current plural field. -/
structure Todo where
  id : Option Nat
  title : String
  description : String
  completed : Bool
  type : TodoType
  image : Option Nat
  images : Option (List Nat)
  createdAt : Int
deriving DecidableEq, Repr

/-! ### View filter and sort (current revision, src/src/App.tsx) -/

/-- The predicate of the `allTodos.filter(...)` callback in
`filteredTodos` of src/src/App.tsx.  `recentlyCompletedIds.includes(todo.id!)`
is false when `id` is undefined, hence the `Option` match. -/
def filterPred (tz now : Int) (viewMode : ViewMode) (activeTab : TabType)
    (selectedDate : Int) (recentlyCompletedIds : List Nat) (todo : Todo) : Bool :=
  if viewMode == ViewMode.calendar then false
  else
    match activeTab with
    | TabType.day =>
        todo.type == TodoType.day && isSameDay tz todo.createdAt selectedDate
    | TabType.month =>
        todo.type == TodoType.month
          && getMonth tz todo.createdAt == getMonth tz selectedDate
          && getFullYear tz todo.createdAt == getFullYear tz selectedDate
    | TabType.year =>
        getFullYear tz todo.createdAt == getFullYear tz selectedDate
          && isAfter todo.createdAt (startOfToday tz now)
    | TabType.incomplete =>
        (!todo.completed
            || (match todo.id with
                | some i => recentlyCompletedIds.contains i
                | none => false))
          && isBefore todo.createdAt (startOfToday tz now)

/-- `filteredTodos` of src/src/App.tsx: filter, then the stable sort whose
comparator is `a.createdAt - b.createdAt` on the year tab and constantly 0
otherwise (a constant-0 comparator under a stable sort is the identity). -/
def filteredTodos (tz now : Int) (allTodos : List Todo) (viewMode : ViewMode)
    (activeTab : TabType) (selectedDate : Int) (recentlyCompletedIds : List Nat) :
    List Todo :=
  let filtered :=
    allTodos.filter (filterPred tz now viewMode activeTab selectedDate recentlyCompletedIds)
  if activeTab == TabType.year then
    filtered.mergeSort (fun a b => decide (a.createdAt ≤ b.createdAt))
  else
    filtered

/-! ### View filter and sort (earlier revision, src/unnamed/part_000) -/

/-- The filter predicate of the earlier App revision: identical except that
the year tab shows all records of the selected year. -/
def filterPredV0 (tz now : Int) (viewMode : ViewMode) (activeTab : TabType)
    (selectedDate : Int) (recentlyCompletedIds : List Nat) (todo : Todo) : Bool :=
  if viewMode == ViewMode.calendar then false
  else
    match activeTab with
    | TabType.day =>
        todo.type == TodoType.day && isSameDay tz todo.createdAt selectedDate
    | TabType.month =>
        todo.type == TodoType.month
          && getMonth tz todo.createdAt == getMonth tz selectedDate
          && getFullYear tz todo.createdAt == getFullYear tz selectedDate
    | TabType.year =>
        getFullYear tz todo.createdAt == getFullYear tz selectedDate
    | TabType.incomplete =>
        (!todo.completed
            || (match todo.id with
                | some i => recentlyCompletedIds.contains i
                | none => false))
          && isBefore todo.createdAt (startOfToday tz now)

/-- `filteredTodos` of the earlier App revision (same sort step). -/
def filteredTodosV0 (tz now : Int) (allTodos : List Todo) (viewMode : ViewMode)
    (activeTab : TabType) (selectedDate : Int) (recentlyCompletedIds : List Nat) :
    List Todo :=
  let filtered :=
    allTodos.filter (filterPredV0 tz now viewMode activeTab selectedDate recentlyCompletedIds)
  if activeTab == TabType.year then
    filtered.mergeSort (fun a b => decide (a.createdAt ≤ b.createdAt))
  else
    filtered

/-! ### Badge counts (`stats` of src/src/App.tsx) -/

/-- `stats.day`: incomplete day-type records whose `createdAt` is the same
local calendar day as `new Date()` (the current instant `now`). -/
def statsDay (tz now : Int) (allTodos : List Todo) : Nat :=
  (allTodos.filter (fun t =>
    t.type == TodoType.day && !t.completed && isSameDay tz t.createdAt now)).length

/-- `stats.incomplete`: incomplete records strictly before the local start
of today. -/
def statsIncomplete (tz now : Int) (allTodos : List Todo) : Nat :=
  (allTodos.filter (fun t =>
    !t.completed && isBefore t.createdAt (startOfToday tz now))).length

/-- `stats.year`: incomplete year-type records, with no date condition. -/
def statsYear (allTodos : List Todo) : Nat :=
  (allTodos.filter (fun t => t.type == TodoType.year && !t.completed)).length

/-- JS `String.prototype.trim`: strip whitespace from both ends (embedded
as a list-of-characters operation so that it is kernel-computable). -/
def jsTrim (s : String) : String :=
  String.mk (((s.data.dropWhile Char.isWhitespace).reverse.dropWhile
    Char.isWhitespace).reverse)

/-! ### Record store operations (Dexie table, keyed by unique primary id) -/

/-- `db.todos.get(id)`: the record with primary key `id` (the first match
in the list model; primary keys are unique in the store). -/
def dbGet (db : List Todo) (i : Nat) : Option Todo :=
  match db with
  | [] => none
  | t :: ts => if t.id == some i then some t else dbGet ts i

/-- `db.todos.update(id, changes)`: merge `f` into the record with primary
key `id` (the first match in the list model); a no-op when absent. -/
def dbUpdate (db : List Todo) (i : Nat) (f : Todo → Todo) : List Todo :=
  match db with
  | [] => []
  | t :: ts => if t.id == some i then f t :: ts else t :: dbUpdate ts i f

/-- `toggleTodo` of src/src/App.tsx: guard `if (!id) return` (JS falsy:
undefined or 0), read the record, push the id onto `recentlyCompletedIds`
when completing it from the incomplete tab, then update only `completed`.
Returns the new table and the new `recentlyCompletedIds`. -/
def toggleTodo (db : List Todo) (rc : List Nat) (activeTab : TabType)
    (id : Option Nat) : List Todo × List Nat :=
  match id with
  | none => (db, rc)
  | some i =>
      if i == 0 then (db, rc)
      else
        match dbGet db i with
        | none => (db, rc)
        | some todo =>
            (dbUpdate db i (fun t => { t with completed := !todo.completed }),
             if activeTab == TabType.incomplete && !todo.completed then rc ++ [i] else rc)

/-- The conversion implicit in `activeTab === 'incomplete' ? 'day' : activeTab`
of `addTodo`: the non-incomplete tabs coincide with stored types. -/
def tabAsType : TabType → TodoType
  | TabType.day => TodoType.day
  | TabType.month => TodoType.month
  | TabType.year => TodoType.year
  | TabType.incomplete => TodoType.day

/-- `addTodo` of src/src/App.tsx, at the level of the record handed to
`db.todos.add`: `none` when the guard `if (!inputTitle.trim()) return`
fires (empty title after trimming), otherwise the record that is
persisted (the store assigns the id). -/
def addTodoRecord (activeTab : TabType) (inputTitle inputDescription : String)
    (pendingImages : List Nat) (selectedDate : Int) : Option Todo :=
  if jsTrim inputTitle == "" then none
  else
    some
      { id := none
        title := jsTrim inputTitle
        description := jsTrim inputDescription
        completed := false
        type := if activeTab == TabType.incomplete then TodoType.day else tabAsType activeTab
        image := none
        images := if 0 < pendingImages.length then some pendingImages else none
        createdAt := selectedDate }

/-- `saveEdit` of src/src/App.tsx: guard `if (!id || !editTitle.trim()) return`,
then update title, description and images of the record. -/
def saveEdit (db : List Todo) (id : Option Nat) (editTitle editDescription : String)
    (editImages : List Nat) : List Todo :=
  match id with
  | none => db
  | some i =>
      if i == 0 then db
      else if jsTrim editTitle == "" then db
      else
        dbUpdate db i (fun t =>
          { t with
            title := jsTrim editTitle
            description := jsTrim editDescription
            images := some editImages })

/-! ### Attachment accessors (current schema over legacy records) -/

/-- The `imagesToShow` expression of the render path in src/src/App.tsx:
`todo.images && todo.images.length > 0 ? todo.images : (todo.image ? [todo.image] : [])`. -/
def imagesToShow (todo : Todo) : List Nat :=
  match todo.images with
  | some imgs => if 0 < imgs.length then imgs else (match todo.image with
      | some b => [b]
      | none => [])
  | none =>
      match todo.image with
      | some b => [b]
      | none => []

/-- The `loadedImages` expression of `startEdit` in src/src/App.tsx:
`todo.images || (todo.image ? [todo.image] : [])` (an empty array is
truthy in JS, so a present-but-empty `images` is taken as is). -/
def loadedImages (todo : Todo) : List Nat :=
  match todo.images with
  | some imgs => imgs
  | none =>
      match todo.image with
      | some b => [b]
      | none => []

/-! ### OCR adapter (`recognizeText` of src/src/App.tsx)

The tesseract worker is an external capability; one invocation is modelled
by the list of logger messages it emits and its outcome (recognized text,
or a thrown error).  Progress is a rational, as the fractional progress of
the external interface. -/

/-- A logger message: tesseract sets `m.status` and `m.progress`. -/
structure OcrMessage where
  recognizing : Bool
  progress : ℚ
deriving DecidableEq

/-- One run of the external recognition: its logger messages and whether it
returned text or threw. -/
structure OcrRun where
  messages : List OcrMessage
  outcome : Except Unit String

/-- The transient OCR UI state (`isScanning`, `scanProgress`). -/
structure OcrUiState where
  isScanning : Bool
  scanProgress : Int
deriving DecidableEq, Repr

/-- The logger callback: on a `recognizing text` message it stores
`Math.floor(m.progress * 100)`; other messages are ignored. -/
def loggerValue (m : OcrMessage) : Option Int :=
  if m.recognizing then some (Int.floor (m.progress * 100)) else none

/-- All progress values the logger writes to `scanProgress` during a run. -/
def reportedProgress (run : OcrRun) : List Int :=
  run.messages.filterMap loggerValue

/-- `recognizeText`: the try/catch/finally collapses to — return the
recognized text on success and the empty string on a thrown error, and in
both cases leave `isScanning = false`, `scanProgress = 0` (the finally
block).  The returned pair is (result text, final UI state). -/
def recognizeText (run : OcrRun) : String × OcrUiState :=
  match run.outcome with
  | Except.ok text => (text, ⟨false, 0⟩)
  | Except.error _ => ("", ⟨false, 0⟩)

/-! ### Concrete sample data (used in scenarios and witnesses) -/

/-- A sample record with explicit id, type, completion flag and date. -/
def mkTodo (i : Nat) (ty : TodoType) (c : Bool) (ms : Int) : Todo :=
  { id := some i
    title := "t"
    description := ""
    completed := c
    type := ty
    image := none
    images := none
    createdAt := ms }

def dMar09 : Int := mkLocalMs 0 2024 3 9 0 0
def dMar10 : Int := mkLocalMs 0 2024 3 10 0 0
def tLate : Int := mkLocalMs 0 2024 3 10 23 50
def tNext : Int := mkLocalMs 0 2024 3 11 0 5

/-- Day-type record at 2024-03-10T23:50 local time. -/
def todoLate : Todo := mkTodo 1 TodoType.day false tLate

/-- Day-type record at 2024-03-11T00:05 local time. -/
def todoNext : Todo := mkTodo 2 TodoType.day false tNext

/-- Incomplete day-type record dated yesterday (2024-03-09). -/
def todoYesterday : Todo := mkTodo 3 TodoType.day false dMar09

/-- Completed day-type record dated today (2024-03-10). -/
def todoDoneToday : Todo := mkTodo 4 TodoType.day true dMar10

/-- Completed day-type record dated yesterday. -/
def todoDonePast : Todo := mkTodo 5 TodoType.day true dMar09

/-- Incomplete year-type record dated yesterday. -/
def todoYearPast : Todo := mkTodo 6 TodoType.year false dMar09

/-- Incomplete month-type record dated today. -/
def monthTodayTodo : Todo := mkTodo 7 TodoType.month false dMar10

/-- A record written before the schema change: legacy single `image`, no
`images`. -/
def legacyTodo : Todo :=
  { id := some 8
    title := "t"
    description := ""
    completed := false
    type := TodoType.day
    image := some 42
    images := none
    createdAt := 0 }

def emptyTitle : String := ""

def fullTitle : String := "todo"

/-- The record `addTodoRecord` builds on the incomplete tab from
`fullTitle` and date 5. -/
def addedRec : Todo :=
  { id := none
    title := "todo"
    description := ""
    completed := false
    type := TodoType.day
    image := none
    images := none
    createdAt := 5 }

/-- An OCR run that reports 50% progress once and then throws. -/
def sampleRun : OcrRun :=
  { messages := [{ recognizing := true, progress := mkRat 1 2 }]
    outcome := Except.error () }

/-! ### Helper lemmas -/

theorem isSameDay_iff (tz a b : Int) :
    isSameDay tz a b = true ↔ localDays tz a = localDays tz b := by
  unfold isSameDay startOfDay msPerDay
  simp only [beq_iff_eq]
  omega

theorem dbUpdate_of_get_none {db : List Todo} {i : Nat} {f : Todo → Todo}
    (h : dbGet db i = none) : dbUpdate db i f = db := by
  induction db with
  | nil => rfl
  | cons u us ih =>
      by_cases hu : u.id = some i
      · simp [dbGet, hu] at h
      · simp only [dbGet, beq_iff_eq, hu, if_false] at h
        simp [dbUpdate, hu, ih h]

theorem dbGet_dbUpdate {db : List Todo} {i : Nat} {f : Todo → Todo} {t : Todo}
    (hf : ∀ s, (f s).id = s.id) (h : dbGet db i = some t) :
    dbGet (dbUpdate db i f) i = some (f t) := by
  induction db with
  | nil => simp [dbGet] at h
  | cons u us ih =>
      by_cases hu : u.id = some i
      · simp only [dbGet, beq_iff_eq, hu, if_true] at h
        rw [Option.some.injEq] at h
        subst h
        simp [dbUpdate, dbGet, hu, hf u]
      · simp only [dbGet, beq_iff_eq, hu, if_false] at h
        simp [dbUpdate, dbGet, hu, ih h]

theorem dbUpdate_dbUpdate {db : List Todo} {i : Nat} {f g : Todo → Todo}
    (hf : ∀ s, (f s).id = s.id) :
    dbUpdate (dbUpdate db i f) i g = dbUpdate db i (fun s => g (f s)) := by
  induction db with
  | nil => rfl
  | cons u us ih =>
      by_cases hu : u.id = some i
      · simp [dbUpdate, hu, hf u]
      · simp [dbUpdate, hu, ih]

theorem dbUpdate_eq_self {db : List Todo} {i : Nat} {f : Todo → Todo} {t : Todo}
    (h : dbGet db i = some t) (ht : f t = t) : dbUpdate db i f = db := by
  induction db with
  | nil => rfl
  | cons u us ih =>
      by_cases hu : u.id = some i
      · simp only [dbGet, beq_iff_eq, hu, if_true] at h
        rw [Option.some.injEq] at h
        subst h
        simp [dbUpdate, hu, ht]
      · simp only [dbGet, beq_iff_eq, hu, if_false] at h
        simp [dbUpdate, hu, ih h]

theorem mem_dbUpdate_of_get {db : List Todo} {i : Nat} {f : Todo → Todo} {t : Todo}
    (h : dbGet db i = some t) : f t ∈ dbUpdate db i f := by
  induction db with
  | nil => simp [dbGet] at h
  | cons u us ih =>
      by_cases hu : u.id = some i
      · simp only [dbGet, beq_iff_eq, hu, if_true] at h
        rw [Option.some.injEq] at h
        subst h
        simp [dbUpdate, hu]
      · simp only [dbGet, beq_iff_eq, hu, if_false] at h
        simp only [dbUpdate, beq_iff_eq, hu, if_false]
        exact List.mem_cons_of_mem u (ih h)

theorem mem_dbUpdate {db : List Todo} {i : Nat} {f : Todo → Todo} {t : Todo}
    (h : t ∈ dbUpdate db i f) : t ∈ db ∨ ∃ s ∈ db, t = f s := by
  induction db with
  | nil => simp [dbUpdate] at h
  | cons u us ih =>
      by_cases hu : u.id = some i
      · simp only [dbUpdate, beq_iff_eq, hu, if_true] at h
        rcases List.mem_cons.mp h with h1 | h1
        · exact Or.inr ⟨u, List.mem_cons_self u us, h1⟩
        · exact Or.inl (List.mem_cons_of_mem u h1)
      · simp only [dbUpdate, beq_iff_eq, hu, if_false] at h
        rcases List.mem_cons.mp h with h1 | h1
        · exact Or.inl (h1 ▸ List.mem_cons_self u us)
        · rcases ih h1 with h2 | ⟨s, hs, hst⟩
          · exact Or.inl (List.mem_cons_of_mem u h2)
          · exact Or.inr ⟨s, List.mem_cons_of_mem u hs, hst⟩

theorem dbGet_id {db : List Todo} {i : Nat} {t : Todo}
    (h : dbGet db i = some t) : t.id = some i := by
  induction db with
  | nil => simp [dbGet] at h
  | cons u us ih =>
      by_cases hu : u.id = some i
      · simp only [dbGet, beq_iff_eq, hu, if_true] at h
        rw [Option.some.injEq] at h
        subst h
        exact hu
      · simp only [dbGet, beq_iff_eq, hu, if_false] at h
        exact ih h

/-! ### Claim theorems -/

/-- C1: for every record set and selected date, the year-tab view contains
exactly the records whose `createdAt` falls in the same calendar year as
the selected date and is strictly after the local start of today
(future-only), and returns them sorted ascending by `createdAt` (oldest
first), reversing the store's newest-first input order. -/
theorem yearTab_future_only_ascending (tz now : Int) (allTodos : List Todo)
    (sel : Int) (rc : List Nat) :
    ((filteredTodos tz now allTodos ViewMode.list TabType.year sel rc).Perm
        (allTodos.filter (fun t =>
          decide (getFullYear tz t.createdAt = getFullYear tz sel ∧
            startOfToday tz now < t.createdAt)))) ∧
    (∀ t : Todo,
        t ∈ filteredTodos tz now allTodos ViewMode.list TabType.year sel rc ↔
          (t ∈ allTodos ∧ getFullYear tz t.createdAt = getFullYear tz sel ∧
            startOfToday tz now < t.createdAt)) ∧
    (filteredTodos tz now allTodos ViewMode.list TabType.year sel rc).Pairwise
      (fun a b => a.createdAt ≤ b.createdAt) := by
  have hft : filteredTodos tz now allTodos ViewMode.list TabType.year sel rc =
      (allTodos.filter (filterPred tz now ViewMode.list TabType.year sel rc)).mergeSort
        (fun a b => decide (a.createdAt ≤ b.createdAt)) := rfl
  have hpred : ∀ t ∈ allTodos,
      filterPred tz now ViewMode.list TabType.year sel rc t =
        decide (getFullYear tz t.createdAt = getFullYear tz sel ∧
          startOfToday tz now < t.createdAt) := by
    intro t _
    rw [Bool.eq_iff_iff]
    simp [filterPred, isAfter]
  refine ⟨?_, ?_, ?_⟩
  · rw [hft, List.filter_congr hpred]
    exact List.mergeSort_perm _ _
  · intro t
    rw [hft]
    simp [List.mem_filter, filterPred, isAfter, and_assoc]
  · rw [hft]
    refine List.Pairwise.imp (fun hab => of_decide_eq_true hab)
      (@List.sorted_mergeSort Todo (fun a b => decide (a.createdAt ≤ b.createdAt))
        ?_ ?_ (allTodos.filter (filterPred tz now ViewMode.list TabType.year sel rc)))
    · intro a b c hab hbc
      exact decide_eq_true (le_trans (of_decide_eq_true hab) (of_decide_eq_true hbc))
    · intro a b
      rcases le_total a.createdAt b.createdAt with h | h
      · simp [h]
      · simp [h]

/-- C2: for every record set, selected date and session state, the day-tab
view contains exactly the day-type records whose `createdAt` is on the same
local calendar day as the selected date, in store order; a record at
2024-03-10T23:50 local is visible under selected date 2024-03-10 while one
at 2024-03-11T00:05 is not. -/
theorem dayTab_same_calendar_day (tz now : Int) (allTodos : List Todo)
    (sel : Int) (rc : List Nat) :
    (∀ t : Todo,
        t ∈ filteredTodos tz now allTodos ViewMode.list TabType.day sel rc ↔
          (t ∈ allTodos ∧ t.type = TodoType.day ∧
            localDays tz t.createdAt = localDays tz sel)) ∧
    List.Sublist (filteredTodos tz now allTodos ViewMode.list TabType.day sel rc) allTodos ∧
    filteredTodos 0 dMar10 [todoNext, todoLate] ViewMode.list TabType.day dMar10 [] =
      [todoLate] := by
  have hft : filteredTodos tz now allTodos ViewMode.list TabType.day sel rc =
      allTodos.filter (filterPred tz now ViewMode.list TabType.day sel rc) := rfl
  refine ⟨?_, ?_, ?_⟩
  · intro t
    rw [hft]
    simp [List.mem_filter, filterPred, isSameDay_iff, and_assoc]
  · rw [hft]
    exact List.filter_sublist _
  · decide

/-- Membership in the incomplete-tab view, characterized. -/
theorem mem_incomplete_iff (tz now : Int) (allTodos : List Todo) (sel : Int)
    (rc : List Nat) (t : Todo) :
    t ∈ filteredTodos tz now allTodos ViewMode.list TabType.incomplete sel rc ↔
      (t ∈ allTodos ∧ t.createdAt < startOfToday tz now ∧
        (t.completed = false ∨ ∃ i, t.id = some i ∧ i ∈ rc)) := by
  have hft : filteredTodos tz now allTodos ViewMode.list TabType.incomplete sel rc =
      allTodos.filter (filterPred tz now ViewMode.list TabType.incomplete sel rc) := rfl
  rw [hft]
  cases hid : t.id with
  | none =>
      simp [List.mem_filter, filterPred, isBefore, hid, and_assoc]
      tauto
  | some j =>
      simp [List.mem_filter, filterPred, isBefore, hid, and_assoc]
      tauto

/-- C3: for every record set, selected date and recently-completed id set,
the incomplete (overdue) tab shows exactly the records dated strictly
before the local start of today that are not completed or whose id is in
the recently-completed set, in store order; a past record completed from
the incomplete tab during the session stays visible with the updated
session set, and disappears once the set is cleared (a reload). -/
theorem incompleteTab_overdue_session (tz now : Int) (allTodos : List Todo)
    (sel : Int) (rc : List Nat) :
    (∀ t : Todo,
        t ∈ filteredTodos tz now allTodos ViewMode.list TabType.incomplete sel rc ↔
          (t ∈ allTodos ∧ t.createdAt < startOfToday tz now ∧
            (t.completed = false ∨ ∃ i, t.id = some i ∧ i ∈ rc))) ∧
    List.Sublist (filteredTodos tz now allTodos ViewMode.list TabType.incomplete sel rc)
      allTodos ∧
    (∀ (db : List Todo) (t : Todo) (i : Nat),
        i ≠ 0 → dbGet db i = some t → t.completed = false →
        t.createdAt < startOfToday tz now →
          ({ t with completed := true } ∈
              filteredTodos tz now (toggleTodo db rc TabType.incomplete (some i)).1
                ViewMode.list TabType.incomplete sel
                (toggleTodo db rc TabType.incomplete (some i)).2 ∧
            { t with completed := true } ∉
              filteredTodos tz now (toggleTodo db rc TabType.incomplete (some i)).1
                ViewMode.list TabType.incomplete sel [])) := by
  refine ⟨mem_incomplete_iff tz now allTodos sel rc, ?_, ?_⟩
  · exact List.filter_sublist _
  · intro db t i hi hget hdone hpast
    have hne : (i == 0) = false := by simpa using hi
    have htog : toggleTodo db rc TabType.incomplete (some i) =
        (dbUpdate db i (fun s => { s with completed := true }), rc ++ [i]) := by
      simp [toggleTodo, hne, hget, hdone]
    rw [htog]
    constructor
    · refine (mem_incomplete_iff tz now _ sel _ _).mpr
        ⟨@mem_dbUpdate_of_get db i (fun s => { s with completed := true }) t hget,
          hpast, Or.inr ⟨i, ?_, ?_⟩⟩
      · exact (dbGet_id hget : t.id = some i)
      · exact List.mem_append_right rc (List.mem_singleton.mpr rfl)
    · intro hmem
      rcases (mem_incomplete_iff tz now _ sel _ _).mp hmem with ⟨_, _, hbad⟩
      rcases hbad with hbad | ⟨j, _, hj⟩
      · simp at hbad
      · simp at hj

/-- Closed instance of the session clause of the incomplete-tab theorem:
a record dated yesterday, completed from the incomplete tab, stays in the
view with the session set and is gone with the cleared set. -/
theorem incompleteTab_overdue_session_witness :
    { todoYesterday with completed := true } ∈
        filteredTodos 0 dMar10 (toggleTodo [todoYesterday] [] TabType.incomplete (some 3)).1
          ViewMode.list TabType.incomplete dMar10
          (toggleTodo [todoYesterday] [] TabType.incomplete (some 3)).2 ∧
      { todoYesterday with completed := true } ∉
        filteredTodos 0 dMar10 (toggleTodo [todoYesterday] [] TabType.incomplete (some 3)).1
          ViewMode.list TabType.incomplete dMar10 [] :=
  (incompleteTab_overdue_session 0 dMar10 [todoYesterday] dMar10 []).2.2
    [todoYesterday] todoYesterday 3 (by decide) (by decide) (by decide) (by decide)

/-- C4 counterexample: the day badge does not count every incomplete
record dated today — an incomplete month-type record dated today is left
out, because the day badge additionally requires `type == day`. -/
theorem dayBadge_misses_incomplete_month_today :
    ¬ (statsDay 0 dMar10 [monthTodayTodo] =
        [monthTodayTodo].countP (fun t =>
          decide (t.completed = false ∧ localDays 0 t.createdAt = localDays 0 dMar10))) := by
  decide

/-- C4 (amended): the day badge counts exactly the incomplete records of
type day whose `createdAt` is on today's local calendar day, regardless of
the selected date; the incomplete badge counts all incomplete records
strictly before the local start of today, irrespective of the
recently-completed set; the year badge counts all incomplete year-type
records regardless of date — and each badge predicate is distinct from the
corresponding list predicate, as the three closed separations show. -/
theorem badge_counts (tz now : Int) (allTodos : List Todo) :
    (statsDay tz now allTodos = allTodos.countP (fun t =>
        decide (t.type = TodoType.day ∧ t.completed = false ∧
          localDays tz t.createdAt = localDays tz now))) ∧
    (statsIncomplete tz now allTodos = allTodos.countP (fun t =>
        decide (t.completed = false ∧ t.createdAt < startOfToday tz now))) ∧
    (statsYear allTodos = allTodos.countP (fun t =>
        decide (t.type = TodoType.year ∧ t.completed = false))) ∧
    (statsDay 0 dMar10 [todoDoneToday] = 0 ∧
      (filteredTodos 0 dMar10 [todoDoneToday] ViewMode.list TabType.day dMar10 []).length
        = 1) ∧
    (statsIncomplete 0 dMar10 [todoDonePast] = 0 ∧
      (filteredTodos 0 dMar10 [todoDonePast] ViewMode.list TabType.incomplete dMar10
        [5]).length = 1) ∧
    (statsYear [todoYearPast] = 1 ∧
      (filteredTodos 0 tLate [todoYearPast] ViewMode.list TabType.year dMar10 []).length
        = 0) := by
  refine ⟨?_, ?_, ?_, by decide, by decide, ⟨by decide, ?_⟩⟩
  · unfold statsDay
    rw [← List.countP_eq_length_filter]
    refine List.countP_congr ?_
    intro t _
    rw [Bool.eq_iff_iff]
    simp [isSameDay_iff, and_assoc]
  · unfold statsIncomplete
    rw [← List.countP_eq_length_filter]
    refine List.countP_congr ?_
    intro t _
    rw [Bool.eq_iff_iff]
    simp [isBefore]
  · unfold statsYear
    rw [← List.countP_eq_length_filter]
    refine List.countP_congr ?_
    intro t _
    rw [Bool.eq_iff_iff]
    simp
  · have h : filteredTodos 0 tLate [todoYearPast] ViewMode.list TabType.year dMar10 [] =
        (List.filter (filterPred 0 tLate ViewMode.list TabType.year dMar10 [])
          [todoYearPast]).mergeSort (fun a b => decide (a.createdAt ≤ b.createdAt)) := rfl
    rw [h, List.length_mergeSort]
    decide

/-- C5: a submission whose title is empty after trimming makes both the
add operation and the edit-save operation silent no-ops, and neither
operation can ever persist a record with an empty title. -/
theorem empty_title_silent_noop (activeTab : TabType)
    (inputTitle inputDescription : String) (pendingImages : List Nat)
    (selectedDate : Int) (db : List Todo) (id : Option Nat)
    (editTitle editDescription : String) (editImages : List Nat) :
    (jsTrim inputTitle = "" →
      addTodoRecord activeTab inputTitle inputDescription pendingImages selectedDate
        = none) ∧
    (jsTrim editTitle = "" → saveEdit db id editTitle editDescription editImages = db) ∧
    (∀ r : Todo,
        addTodoRecord activeTab inputTitle inputDescription pendingImages selectedDate
          = some r → r.title ≠ "") ∧
    ((∀ t ∈ db, t.title ≠ "") →
      ∀ t ∈ saveEdit db id editTitle editDescription editImages, t.title ≠ "") := by
  refine ⟨?_, ?_, ?_, ?_⟩
  · intro h
    simp [addTodoRecord, h]
  · intro h
    cases id with
    | none => rfl
    | some i => simp [saveEdit, h]
  · intro r hr
    by_cases ht : jsTrim inputTitle = ""
    · simp [addTodoRecord, ht] at hr
    · simp only [addTodoRecord, beq_iff_eq, ht, if_false, Option.some.injEq] at hr
      subst hr
      simpa using ht
  · intro hdb t htmem
    cases id with
    | none => exact hdb t htmem
    | some i =>
        by_cases hi : i = 0
        · subst hi
          simp only [saveEdit, beq_self_eq_true, if_true] at htmem
          exact hdb t htmem
        · by_cases ht : jsTrim editTitle = ""
          · simp only [saveEdit, beq_iff_eq, hi, if_false, ht, if_true] at htmem
            exact hdb t htmem
          · simp only [saveEdit, beq_iff_eq, hi, ht, if_false] at htmem
            rcases mem_dbUpdate htmem with h1 | ⟨s, _, h2⟩
            · exact hdb t h1
            · subst h2
              simpa using ht

/-- Closed instance of the empty-title guards at a concrete store. -/
theorem empty_title_silent_noop_witness :
    addTodoRecord TabType.day emptyTitle emptyTitle [] 0 = none ∧
    saveEdit [todoLate] (some 1) emptyTitle emptyTitle [] = [todoLate] := by
  have h := empty_title_silent_noop TabType.day emptyTitle emptyTitle [] 0 [todoLate]
    (some 1) emptyTitle emptyTitle []
  exact ⟨h.1 rfl, h.2.1 rfl⟩

/-- Erase the one field a completion toggle changes. -/
def eraseCompleted (t : Todo) : Todo := { t with completed := false }

/-- A `dbUpdate` whose change is invisible after erasing `completed`
preserves the table up to `completed`. -/
theorem map_eraseCompleted_dbUpdate {db : List Todo} {i : Nat} {f : Todo → Todo}
    (hf : ∀ s, eraseCompleted (f s) = eraseCompleted s) :
    (dbUpdate db i f).map eraseCompleted = db.map eraseCompleted := by
  induction db with
  | nil => rfl
  | cons u us ih =>
      by_cases hu : u.id = some i
      · simp [dbUpdate, hu, hf u]
      · simp [dbUpdate, hu, ih]

/-- C6: toggling completion twice returns the store to its original state
(in particular the record's `completed` flag to its original value), and a
single toggle changes nothing but `completed` — erasing the `completed`
field of every record yields the same table as before the toggle, so
`createdAt` and every other field are untouched. -/
theorem toggle_twice_restores (db : List Todo) (rc rc2 : List Nat)
    (tab tab2 : TabType) (id : Option Nat) :
    (toggleTodo (toggleTodo db rc tab id).1 rc2 tab2 id).1 = db ∧
    (toggleTodo db rc tab id).1.map eraseCompleted = db.map eraseCompleted := by
  constructor
  · cases id with
    | none => rfl
    | some i =>
        by_cases hi : i = 0
        · subst hi
          simp [toggleTodo]
        · cases hget : dbGet db i with
          | none =>
              simp [toggleTodo, hi, hget, dbUpdate_of_get_none]
          | some t =>
              have hf : ∀ s : Todo,
                  ((fun s : Todo => { s with completed := !t.completed }) s).id = s.id :=
                fun _ => rfl
              have h2 : dbGet (dbUpdate db i
                    (fun s => { s with completed := !t.completed })) i =
                  some { t with completed := !t.completed } :=
                dbGet_dbUpdate hf hget
              simp only [toggleTodo, beq_iff_eq, hi, if_false, hget]
              simp only [toggleTodo, beq_iff_eq, hi, if_false, h2]
              rw [dbUpdate_dbUpdate hf]
              refine dbUpdate_eq_self hget ?_
              simp
  · cases id with
    | none => rfl
    | some i =>
        by_cases hi : i = 0
        · subst hi
          simp [toggleTodo]
        · cases hget : dbGet db i with
          | none => simp [toggleTodo, hi, hget]
          | some t =>
              simp only [toggleTodo, beq_iff_eq, hi, if_false, hget]
              exact map_eraseCompleted_dbUpdate (fun _ => rfl)

/-- C7: a record carrying only the legacy singular `image` field and no
plural `images` field yields exactly one attachment — the legacy blob in a
single-element sequence — through both current-schema accessors. -/
theorem legacy_single_image_fallback (t : Todo) (b : Nat)
    (h1 : t.images = none) (h2 : t.image = some b) :
    imagesToShow t = [b] ∧ loadedImages t = [b] := by
  constructor
  · simp [imagesToShow, h1, h2]
  · simp [loadedImages, h1, h2]

/-- Closed instance of the legacy-image fallback on a concrete record. -/
theorem legacy_single_image_fallback_witness :
    imagesToShow legacyTodo = [42] ∧ loadedImages legacyTodo = [42] :=
  legacy_single_image_fallback legacyTodo 42 rfl rfl

/-- C8: every record the add operation persists has a stored type among
day, month and year; a submission from the incomplete pseudo-tab is stored
with type day; and `createdAt` is the selected date at creation time. -/
theorem addTodo_stored_type (activeTab : TabType)
    (inputTitle inputDescription : String) (pendingImages : List Nat)
    (selectedDate : Int) (r : Todo)
    (h : addTodoRecord activeTab inputTitle inputDescription pendingImages selectedDate
      = some r) :
    (r.type = TodoType.day ∨ r.type = TodoType.month ∨ r.type = TodoType.year) ∧
    (activeTab = TabType.incomplete → r.type = TodoType.day) ∧
    r.createdAt = selectedDate := by
  refine ⟨?_, ?_, ?_⟩
  · cases htype : r.type
    · exact Or.inl rfl
    · exact Or.inr (Or.inl rfl)
    · exact Or.inr (Or.inr rfl)
  · intro htab
    subst htab
    by_cases ht : jsTrim inputTitle = ""
    · simp [addTodoRecord, ht] at h
    · simp only [addTodoRecord, beq_iff_eq, ht, if_false, Option.some.injEq] at h
      subst h
      rfl
  · by_cases ht : jsTrim inputTitle = ""
    · simp [addTodoRecord, ht] at h
    · simp only [addTodoRecord, beq_iff_eq, ht, if_false, Option.some.injEq] at h
      subst h
      rfl

/-- Closed instance of the add-operation type invariants, at an
incomplete-tab submission. -/
theorem addTodo_stored_type_witness :
    (addedRec.type = TodoType.day ∨ addedRec.type = TodoType.month ∨
      addedRec.type = TodoType.year) ∧
    (TabType.incomplete = TabType.incomplete → addedRec.type = TodoType.day) ∧
    addedRec.createdAt = 5 :=
  addTodo_stored_type TabType.incomplete fullTitle emptyTitle [] 5 addedRec (by decide)

/-- C9: the OCR operation never propagates an exception — on a thrown
error it returns the empty string, on success the recognized text; every
progress value the logger reports is an integer in 0..100 (given the
external interface's fractional progress in [0,1]); and on every exit path
the scanning flag is cleared and the progress reset to 0. -/
theorem recognizeText_never_throws (run : OcrRun)
    (hp : ∀ m ∈ run.messages, 0 ≤ m.progress ∧ m.progress ≤ 1) :
    ((recognizeText run).2 = { isScanning := false, scanProgress := 0 }) ∧
    (∀ e : Unit, run.outcome = Except.error e → (recognizeText run).1 = "") ∧
    (∀ text : String, run.outcome = Except.ok text → (recognizeText run).1 = text) ∧
    (∀ v ∈ reportedProgress run, 0 ≤ v ∧ v ≤ 100) := by
  refine ⟨?_, ?_, ?_, ?_⟩
  · cases h : run.outcome with
    | ok text => simp [recognizeText, h]
    | error e => simp [recognizeText, h]
  · intro e he
    simp [recognizeText, he]
  · intro text htext
    simp [recognizeText, htext]
  · intro v hv
    rw [reportedProgress, List.mem_filterMap] at hv
    obtain ⟨m, hm, hval⟩ := hv
    rw [loggerValue] at hval
    by_cases hr : m.recognizing = true
    · rw [if_pos hr, Option.some.injEq] at hval
      subst hval
      obtain ⟨h0, h1⟩ := hp m hm
      constructor
      · exact Int.floor_nonneg.mpr (mul_nonneg h0 (by norm_num))
      · have hle : m.progress * 100 ≤ (100 : ℚ) := by nlinarith
        calc Int.floor (m.progress * 100) ≤ Int.floor ((100 : ℚ)) :=
              Int.floor_le_floor hle
          _ = 100 := by norm_num
    · rw [if_neg hr] at hval
      simp at hval

/-- Closed instance of the OCR safety properties on a run that reports 50%
and then throws. -/
theorem recognizeText_never_throws_witness :
    ((recognizeText sampleRun).2 = { isScanning := false, scanProgress := 0 }) ∧
    (∀ e : Unit, sampleRun.outcome = Except.error e → (recognizeText sampleRun).1 = "") ∧
    (∀ text : String,
      sampleRun.outcome = Except.ok text → (recognizeText sampleRun).1 = text) ∧
    (∀ v ∈ reportedProgress sampleRun, 0 ≤ v ∧ v ≤ 100) :=
  recognizeText_never_throws sampleRun (by decide)

/-- C10: on the day, month and incomplete tabs the two App revisions have
extensionally equal filters — a record is admitted by the current revision
iff it is admitted by the earlier one, the computed views coincide, and
both keep the store's input order; the year-tab predicates differ, as the
closed disagreement at a past same-year record shows. -/
theorem revisions_agree_off_year (tz now : Int) (todos : List Todo) (vm : ViewMode)
    (sel : Int) (rc : List Nat) (tab : TabType)
    (h : tab = TabType.day ∨ tab = TabType.month ∨ tab = TabType.incomplete) :
    (∀ t : Todo, filterPred tz now vm tab sel rc t = filterPredV0 tz now vm tab sel rc t) ∧
    filteredTodos tz now todos vm tab sel rc = filteredTodosV0 tz now todos vm tab sel rc ∧
    List.Sublist (filteredTodos tz now todos vm tab sel rc) todos ∧
    List.Sublist (filteredTodosV0 tz now todos vm tab sel rc) todos ∧
    filterPred 0 tLate ViewMode.list TabType.year dMar10 [] todoYesterday ≠
      filterPredV0 0 tLate ViewMode.list TabType.year dMar10 [] todoYesterday := by
  rcases h with rfl | rfl | rfl
  · exact ⟨fun _ => rfl, rfl, List.filter_sublist _, List.filter_sublist _, by decide⟩
  · exact ⟨fun _ => rfl, rfl, List.filter_sublist _, List.filter_sublist _, by decide⟩
  · exact ⟨fun _ => rfl, rfl, List.filter_sublist _, List.filter_sublist _, by decide⟩

/-- Closed instance of the revision agreement, at the day tab. -/
theorem revisions_agree_off_year_witness :
    (∀ t : Todo,
        filterPred 0 0 ViewMode.list TabType.day 0 [] t =
          filterPredV0 0 0 ViewMode.list TabType.day 0 [] t) ∧
    filteredTodos 0 0 [todoLate] ViewMode.list TabType.day 0 [] =
      filteredTodosV0 0 0 [todoLate] ViewMode.list TabType.day 0 [] ∧
    List.Sublist (filteredTodos 0 0 [todoLate] ViewMode.list TabType.day 0 []) [todoLate] ∧
    List.Sublist (filteredTodosV0 0 0 [todoLate] ViewMode.list TabType.day 0 [])
      [todoLate] ∧
    filterPred 0 tLate ViewMode.list TabType.year dMar10 [] todoYesterday ≠
      filterPredV0 0 tLate ViewMode.list TabType.year dMar10 [] todoYesterday :=
  revisions_agree_off_year 0 0 [todoLate] ViewMode.list 0 [] TabType.day (Or.inl rfl)

end ToDoList
